import Mathlib

/-!
Verification of the trigger-reconstruction and event-alignment procedure of
`preprocessing.py` (`run_preprocess`).  The embedding models the pure core of
the function: rising-edge detection on the marker channel, the
missing-trigger repair walk, the count assertions, the construction of the
aligned event table, and the final timing-tolerance assertion.  Timing
arithmetic is modelled exactly over `ℚ`.
-/

namespace Preproc

/-- Python's `round` (banker's rounding: ties go to the even integer),
as used in `int(round(sfreq * (a[j - 1] + db)))`. -/
def pyRound (q : ℚ) : ℤ :=
  let f := ⌊q⌋
  let r := q - (f : ℚ)
  if r < 1/2 then f
  else if 1/2 < r then f + 1
  else if f % 2 = 0 then f else f + 1

/-- Python's `l.insert(j, x)` for `j ≥ 0`: insert `x` before position `j`,
appending at the end when `j ≥ len(l)`. -/
def pyInsert {α : Type} (j : ℕ) (x : α) (l : List α) : List α :=
  l.take j ++ x :: l.drop j

/-- `np.nonzero(np.diff(stim_data)[0] == target)[0]`: the indices `i` with
`signal[i+1] - signal[i] = delta`, in increasing order. -/
def detectTriggers (signal : List ℚ) (delta : ℚ) : List ℕ :=
  (List.range (signal.length - 1)).filter
    fun i => decide (signal.getD (i + 1) 0 - signal.getD i 0 = delta)

/-- `np.diff`: consecutive differences `l[i+1] - l[i]`. -/
def adjDiffs (l : List ℚ) : List ℚ :=
  List.zipWith (fun x y => x - y) l.tail l

/-- `[int(x) / sfreq for x in stim_onset_sample]`: sample indices as seconds. -/
def toSecs (sfreq : ℚ) (s : List ℤ) : List ℚ :=
  s.map fun x : ℤ => (x : ℚ) / sfreq

/-- One row of the aligned event table `T2`: `onset`, `onsetsample`,
`eventnumber`, and the behavioural `time_stimon` carried over from `T`. -/
structure Row where
  onset : ℚ
  onsetsample : ℤ
  eventnumber : ℕ
  time_stimon : ℚ
  deriving Repr, DecidableEq

/-- The aligned table built by zipping the final sample list with the
expected rows positionally, with a running zero-based event number:
`onset = int(x)/sfreq`, `onsetsample = int(x)`, `eventnumber = range(...)`. -/
def buildRows (sfreq : ℚ) : ℕ → List ℤ → List ℚ → List Row
  | _, [], _ => []
  | _, _ :: _, [] => []
  | i, x :: xs, t :: ts =>
    ⟨(x : ℚ) / sfreq, x, i, t⟩ :: buildRows sfreq (i + 1) xs ts

/-- `np.diff(T2["onset"]) - np.diff(T2["time_stimon"])` for a final sample
list `s` and expected onset times `T`. -/
def signedDiffs (sfreq : ℚ) (s : List ℤ) (T : List ℚ) : List ℚ :=
  List.zipWith (fun x y => x - y) (adjDiffs (toSecs sfreq s)) (adjDiffs T)

/-- Consecutive-pair deviations read off the aligned table itself:
(onset gap) minus (expected gap), for each adjacent pair of rows. -/
def rowDiffs (rows : List Row) : List ℚ :=
  List.zipWith
    (fun r2 r1 => (r2.onset - r1.onset) - (r2.time_stimon - r1.time_stimon))
    rows.tail rows

/-- The fatal failure modes of the reconciliation. -/
inductive RecError where
  | tooManyMissingTriggers
  | insertionOverflow
  | insertionUnderflow
  | alignmentToleranceExceeded
  deriving Repr, DecidableEq

/-- The repair walk `for j in range(1, len(a)) : ...` on the working
sequences: `b` is the expected onset column `T["time_stimon"]`, `a` the
candidate times in seconds, `s` the candidate sample indices.  At each
scheduled position `j` it compares the local gaps `da = a[j] - a[j-1]` and
`db = b[j] - b[j-1]`, and if `da - db > 0.11` inserts `a[j-1] + db` into `a`
and `round(sfreq * (a[j-1] + db))` into `s`, both at position `j`.  The list
`js` of scheduled positions is fixed before the first iteration. -/
def walkFrom (sfreq : ℚ) (b : List ℚ) :
    List ℚ → List ℤ → List ℕ → List ℚ × List ℤ
  | a, s, [] => (a, s)
  | a, s, j :: js =>
    let da := a.getD j 0 - a.getD (j - 1) 0
    let db := b.getD j 0 - b.getD (j - 1) 0
    if 11/100 < da - db then
      let t := a.getD (j - 1) 0 + db
      walkFrom sfreq b (pyInsert j t a) (pyInsert j (pyRound (sfreq * t)) s) js
    else
      walkFrom sfreq b a s js

/-- `missingtriggers = len(T) - len(stim_onset_sample)`. -/
def missingCount (cand : List ℤ) (T : List ℚ) : ℤ :=
  (T.length : ℤ) - (cand.length : ℤ)

/-- The candidate sample list after the missing-trigger block: if
`missing = len(T) - len(cand) > 0` the walk runs (after the
`missing < 100` assertion) over the positions `range(1, len(a))` computed
from the original candidate count; otherwise the candidates pass through
unmodified. -/
def finalCandidates (sfreq : ℚ) (cand : List ℤ) (T : List ℚ) :
    Except RecError (List ℤ) :=
  if 0 < missingCount cand T then
    if 100 ≤ missingCount cand T then .error .tooManyMissingTriggers
    else
      .ok (walkFrom sfreq T (toSecs sfreq cand) cand
        (List.range' 1 (cand.length - 1))).2
  else .ok cand

/-- The tail of `run_preprocess` after the repair block: the two count
assertions (`> len(T)` first, then `< len(T)`), the construction of `T2`,
and the final one-sided tolerance assertion
`np.all(np.diff(onset) - np.diff(time_stimon) < 0.11)`. -/
def finish (sfreq : ℚ) (s : List ℤ) (T : List ℚ) : Except RecError (List Row) :=
  if T.length < s.length then .error .insertionOverflow
  else if s.length < T.length then .error .insertionUnderflow
  else if ∀ d ∈ signedDiffs sfreq s T, d < 11/100 then
    .ok (buildRows sfreq 0 s T)
  else .error .alignmentToleranceExceeded

/-- The pure core of `run_preprocess`: reconcile the candidate trigger list
`cand` with the expected event table `T` (its `time_stimon` column) at
sampling rate `sfreq`, producing the aligned event table or a fatal error. -/
def run_preprocess (sfreq : ℚ) (cand : List ℤ) (T : List ℚ) :
    Except RecError (List Row) :=
  match finalCandidates sfreq cand T with
  | .error e => .error e
  | .ok s => finish sfreq s T

/-! ### Basic facts about the walk -/

theorem length_pyInsert {α : Type} (j : ℕ) (x : α) (l : List α) :
    (pyInsert j x l).length = l.length + 1 := by
  simp [pyInsert]
  omega

theorem walkFrom_length_ge (sfreq : ℚ) (b : List ℚ) :
    ∀ (js : List ℕ) (a : List ℚ) (s : List ℤ),
      s.length ≤ (walkFrom sfreq b a s js).2.length := by
  intro js
  induction js with
  | nil => intro a s; simp [walkFrom]
  | cons j js ih =>
    intro a s
    rw [walkFrom]
    split
    · exact le_trans (by rw [length_pyInsert]; omega) (ih _ _)
    · exact ih _ _

theorem walkFrom_length_le (sfreq : ℚ) (b : List ℚ) :
    ∀ (js : List ℕ) (a : List ℚ) (s : List ℤ),
      (walkFrom sfreq b a s js).2.length ≤ s.length + js.length := by
  intro js
  induction js with
  | nil => intro a s; simp [walkFrom]
  | cons j js ih =>
    intro a s
    rw [walkFrom]
    split
    · refine le_trans (ih _ _) ?_
      rw [length_pyInsert]
      simp only [List.length_cons]
      omega
    · refine le_trans (ih _ _) ?_
      simp only [List.length_cons]
      omega

theorem walkFrom_no_insert (sfreq : ℚ) (b : List ℚ) :
    ∀ (js : List ℕ) (a : List ℚ) (s : List ℤ),
      (∀ j ∈ js,
        ¬ 11/100 < (a.getD j 0 - a.getD (j - 1) 0) -
          (b.getD j 0 - b.getD (j - 1) 0)) →
      walkFrom sfreq b a s js = (a, s) := by
  intro js
  induction js with
  | nil => intro a s _; rfl
  | cons j js ih =>
    intro a s h
    rw [walkFrom]
    rw [if_neg (h j (List.mem_cons_self j js))]
    exact ih a s fun j' hj' => h j' (List.mem_cons_of_mem _ hj')

/-! ### Shape of the reconciliation's result -/

theorem finalCandidates_error_eq (sfreq : ℚ) (cand : List ℤ) (T : List ℚ)
    (e : RecError) (h : finalCandidates sfreq cand T = .error e) :
    e = .tooManyMissingTriggers := by
  unfold finalCandidates at h
  split_ifs at h with h1 h2
  exact (Except.error.inj h).symm

theorem run_eq_finish (sfreq : ℚ) (cand : List ℤ) (T : List ℚ) (s : List ℤ)
    (h : finalCandidates sfreq cand T = .ok s) :
    run_preprocess sfreq cand T = finish sfreq s T := by
  unfold run_preprocess
  rw [h]

theorem run_ok_shape (sfreq : ℚ) (cand : List ℤ) (T : List ℚ) (rows : List Row)
    (h : run_preprocess sfreq cand T = .ok rows) :
    ∃ s, finalCandidates sfreq cand T = .ok s ∧ s.length = T.length ∧
      (∀ d ∈ signedDiffs sfreq s T, d < 11/100) ∧
      rows = buildRows sfreq 0 s T := by
  unfold run_preprocess at h
  split at h
  · simp at h
  · rename_i s heq
    unfold finish at h
    split_ifs at h with h1 h2 h3
    exact ⟨s, heq, by omega, h3, (Except.ok.inj h).symm⟩

theorem finish_eq_tol_iff (sfreq : ℚ) (s : List ℤ) (T : List ℚ) :
    finish sfreq s T = .error .alignmentToleranceExceeded ↔
      s.length = T.length ∧ ¬ ∀ d ∈ signedDiffs sfreq s T, d < 11/100 := by
  unfold finish
  split_ifs with h1 h2 h3
  · constructor
    · intro h; simp at h
    · rintro ⟨hlen, -⟩; omega
  · constructor
    · intro h; simp at h
    · rintro ⟨hlen, -⟩; omega
  · constructor
    · intro h; simp at h
    · rintro ⟨-, hd⟩; exact absurd h3 hd
  · exact ⟨fun _ => ⟨by omega, h3⟩, fun _ => rfl⟩

/-! ### The aligned table's rows -/

theorem rowDiffs_buildRows (sfreq : ℚ) :
    ∀ (s : List ℤ) (T : List ℚ) (i : ℕ), s.length = T.length →
      rowDiffs (buildRows sfreq i s T) = signedDiffs sfreq s T := by
  intro s
  induction s with
  | nil =>
    intro T i h
    cases T with
    | nil => rfl
    | cons t ts => simp at h
  | cons x xs ih =>
    intro T i h
    cases T with
    | nil => simp at h
    | cons t ts =>
      cases xs with
      | nil =>
        cases ts with
        | nil => rfl
        | cons t2 ts2 => simp at h
      | cons x2 xs2 =>
        cases ts with
        | nil => simp at h
        | cons t2 ts2 =>
          have hlen : (x2 :: xs2).length = (t2 :: ts2).length := by
            simpa using h
          have hstep1 : rowDiffs (buildRows sfreq i (x :: x2 :: xs2) (t :: t2 :: ts2)) =
              (((x2 : ℚ)/sfreq - (x : ℚ)/sfreq) - (t2 - t)) ::
                rowDiffs (buildRows sfreq (i + 1) (x2 :: xs2) (t2 :: ts2)) := rfl
          have hstep2 : signedDiffs sfreq (x :: x2 :: xs2) (t :: t2 :: ts2) =
              (((x2 : ℚ)/sfreq - (x : ℚ)/sfreq) - (t2 - t)) ::
                signedDiffs sfreq (x2 :: xs2) (t2 :: ts2) := rfl
          rw [hstep1, hstep2, ih (t2 :: ts2) (i + 1) hlen]

theorem buildRows_getD (sfreq : ℚ) :
    ∀ (s : List ℤ) (T : List ℚ) (k i : ℕ), i < s.length → i < T.length →
      (buildRows sfreq k s T).getD i ⟨0, 0, 0, 0⟩ =
        ⟨(s.getD i 0 : ℚ) / sfreq, s.getD i 0, k + i, T.getD i 0⟩ := by
  intro s
  induction s with
  | nil => intro T k i hs _; simp at hs
  | cons x xs ih =>
    intro T k i hs hT
    cases T with
    | nil => simp at hT
    | cons t ts =>
      cases i with
      | zero => rfl
      | succ n =>
        have hrec := ih ts (k + 1) n (by simpa using hs) (by simpa using hT)
        have hk : k + 1 + n = k + (n + 1) := by omega
        rw [hk] at hrec
        simpa only [buildRows, List.getD_cons_succ] using hrec

theorem mem_buildRows (sfreq : ℚ) :
    ∀ (s : List ℤ) (T : List ℚ) (k : ℕ) (r : Row), r ∈ buildRows sfreq k s T →
      r.onset = (r.onsetsample : ℚ) / sfreq := by
  intro s
  induction s with
  | nil => intro T k r h; simp [buildRows] at h
  | cons x xs ih =>
    intro T k r h
    cases T with
    | nil => simp [buildRows] at h
    | cons t ts =>
      simp only [buildRows, List.mem_cons] at h
      rcases h with h | h
      · subst h; rfl
      · exact ih ts (k + 1) r h

/-! ### Strict monotonicity is preserved by the repair walk -/

theorem pairwise_lt_pyInsert {l : List ℚ} {j : ℕ} {x : ℚ}
    (hl : l.Pairwise (· < ·)) (h1 : 1 ≤ j) (hj : j < l.length)
    (hlo : l.getD (j - 1) 0 < x) (hhi : x < l.getD j 0) :
    (pyInsert j x l).Pairwise (· < ·) := by
  have hget := List.pairwise_iff_getElem.mp hl
  have hj1 : j - 1 < l.length := by omega
  rw [List.getD_eq_getElem l 0 hj1] at hlo
  rw [List.getD_eq_getElem l 0 hj] at hhi
  have htake : ∀ u ∈ l.take j, u < x := by
    intro u hu
    obtain ⟨k, hk, rfl⟩ := List.mem_iff_getElem.mp hu
    rw [List.getElem_take]
    have hkj : k < j := by rw [List.length_take] at hk; omega
    have hkl : k < l.length := by rw [List.length_take] at hk; omega
    rcases Nat.lt_or_ge k (j - 1) with hk2 | hk2
    · exact lt_trans (hget k (j - 1) hkl hj1 hk2) hlo
    · have hkeq : k = j - 1 := by omega
      subst hkeq
      exact hlo
  have hdrop : ∀ v ∈ l.drop j, x < v := by
    intro v hv
    obtain ⟨m, hm, rfl⟩ := List.mem_iff_getElem.mp hv
    rw [List.getElem_drop]
    have hjm : j + m < l.length := by rw [List.length_drop] at hm; omega
    rcases Nat.eq_zero_or_pos m with rfl | hm0
    · simpa using hhi
    · exact lt_trans hhi (hget j (j + m) hj hjm (by omega))
  rw [pyInsert, List.pairwise_append]
  refine ⟨hl.sublist (List.take_sublist j l), ?_, ?_⟩
  · rw [List.pairwise_cons]
    exact ⟨hdrop, hl.sublist (List.drop_sublist j l)⟩
  · intro u hu v hv
    rcases List.mem_cons.mp hv with rfl | hv'
    · exact htake u hu
    · exact lt_trans (htake u hu) (hdrop v hv')

theorem walkFrom_pairwise (sfreq : ℚ) (b : List ℚ) (hb : b.Pairwise (· < ·)) :
    ∀ (js : List ℕ) (a : List ℚ) (s : List ℤ),
      a.Pairwise (· < ·) →
      (∀ j ∈ js, 1 ≤ j ∧ j < a.length ∧ j < b.length) →
      ((walkFrom sfreq b a s js).1).Pairwise (· < ·) := by
  intro js
  induction js with
  | nil => intro a s ha _; exact ha
  | cons j js ih =>
    intro a s ha hjs
    obtain ⟨hj1, hja, hjb⟩ := hjs j (List.mem_cons_self j js)
    rw [walkFrom]
    split
    · rename_i hcond
      apply ih
      · apply pairwise_lt_pyInsert ha hj1 hja
        · have hbj1 : j - 1 < b.length := by omega
          have hb0 : b.getD (j - 1) 0 < b.getD j 0 := by
            rw [List.getD_eq_getElem b 0 hbj1, List.getD_eq_getElem b 0 hjb]
            exact List.pairwise_iff_getElem.mp hb (j - 1) j hbj1 hjb (by omega)
          linarith
        · linarith
      · intro j' hj'
        obtain ⟨h1', h2', h3'⟩ := hjs j' (List.mem_cons_of_mem _ hj')
        rw [length_pyInsert]
        exact ⟨h1', by omega, h3'⟩
    · exact ih a s ha fun j' hj' => hjs j' (List.mem_cons_of_mem _ hj')

theorem run_eq_error (sfreq : ℚ) (cand : List ℤ) (T : List ℚ) (e : RecError)
    (h : finalCandidates sfreq cand T = .error e) :
    run_preprocess sfreq cand T = .error e := by
  unfold run_preprocess
  rw [h]

/-! ### Claim theorems -/

/-- Claim C1 (amended): for every run that completes without a fatal error,
every consecutive-pair deviation of the aligned table's onset deltas from
the expected deltas is below 0.11 s in the signed sense (aligned delta minus
expected delta < 0.11); and the run fails with AlignmentToleranceExceeded
iff the reconciled candidate list passes both count checks and some signed
deviation is ≥ 0.11.  Deviations in the negative direction, however large,
are not detected: the check is one-sided, not absolute-value. -/
theorem C1_alignment_tolerance (sfreq : ℚ) (cand : List ℤ) (T : List ℚ) :
    (∀ rows, run_preprocess sfreq cand T = .ok rows →
      ∀ d ∈ rowDiffs rows, d < 11/100) ∧
    (run_preprocess sfreq cand T = .error .alignmentToleranceExceeded ↔
      ∃ s, finalCandidates sfreq cand T = .ok s ∧ s.length = T.length ∧
        ¬ ∀ d ∈ signedDiffs sfreq s T, d < 11/100) := by
  constructor
  · intro rows h
    obtain ⟨s, hfc, hlen, hd, hrows⟩ := run_ok_shape sfreq cand T rows h
    rw [hrows, rowDiffs_buildRows sfreq s T 0 hlen]
    exact hd
  · constructor
    · intro h
      rcases hfc : finalCandidates sfreq cand T with e | s
      · have he := finalCandidates_error_eq sfreq cand T e hfc
        rw [run_eq_error sfreq cand T e hfc, he] at h
        exact absurd h (by simp)
      · rw [run_eq_finish sfreq cand T s hfc] at h
        obtain ⟨hlen, hnd⟩ := (finish_eq_tol_iff sfreq s T).mp h
        exact ⟨s, rfl, hlen, hnd⟩
    · rintro ⟨s, hfc, hlen, hnd⟩
      rw [run_eq_finish sfreq cand T s hfc]
      exact (finish_eq_tol_iff sfreq s T).mpr ⟨hlen, hnd⟩

/-- Claim C1 as stated is false on the code: with sfreq = 1, candidates
[0, 1] and expected onsets [0, 2], the run completes without any fatal
error although the single consecutive-pair deviation is -1 s, whose
absolute value is ≥ 0.11 s.  The final assertion
`np.all(diffs < 0.11)` is one-sided and never fails for negative
deviations. -/
theorem C1_counterexample :
    run_preprocess 1 [0, 1] [0, 2] =
      .ok [Row.mk 0 0 0 0, Row.mk 1 1 1 2] ∧
    rowDiffs [Row.mk 0 0 0 0, Row.mk 1 1 1 2] = [-1] ∧
    ¬ |(-1 : ℚ)| < 11/100 := by
  refine ⟨?_, by norm_num [rowDiffs], by norm_num⟩
  norm_num [run_preprocess, finalCandidates, missingCount, finish,
    signedDiffs, adjDiffs, toSecs, buildRows]

/-- Witness for the amended C1: the fully aligned Scenario A run succeeds,
and by the theorem its first aligned-vs-expected delta deviation (the
member 0 of the row deviations) is below 0.11 s. -/
theorem C1_witness :
    run_preprocess 512 [0, 512, 1024, 1536] [0, 1, 2, 3] =
      .ok (buildRows 512 0 [0, 512, 1024, 1536] [0, 1, 2, 3]) ∧
    (0 : ℚ) ∈ rowDiffs (buildRows 512 0 [0, 512, 1024, 1536] [0, 1, 2, 3]) ∧
    (0 : ℚ) < 11/100 := by
  have hrun : run_preprocess 512 [0, 512, 1024, 1536] [0, 1, 2, 3] =
      .ok (buildRows 512 0 [0, 512, 1024, 1536] [0, 1, 2, 3]) := by
    norm_num [run_preprocess, finalCandidates, missingCount, finish,
      signedDiffs, adjDiffs, toSecs, buildRows]
  have hmem : (0 : ℚ) ∈ rowDiffs (buildRows 512 0 [0, 512, 1024, 1536] [0, 1, 2, 3]) := by
    norm_num [rowDiffs, buildRows]
  exact ⟨hrun, hmem,
    (C1_alignment_tolerance 512 [0, 512, 1024, 1536] [0, 1, 2, 3]).1 _ hrun 0 hmem⟩

/-- Claim C3: the reconciliation succeeds only when the final candidate
count equals the expected count exactly; a final count above the expected
count fails with InsertionOverflow (in particular whenever missing < 0,
since no insertion runs then), and a final count below it fails with
InsertionUnderflow. -/
theorem C3_count_checks (sfreq : ℚ) (cand : List ℤ) (T : List ℚ) :
    (∀ s, finalCandidates sfreq cand T = .ok s →
      (T.length < s.length →
        run_preprocess sfreq cand T = .error .insertionOverflow) ∧
      (s.length < T.length →
        run_preprocess sfreq cand T = .error .insertionUnderflow)) ∧
    (missingCount cand T < 0 →
      run_preprocess sfreq cand T = .error .insertionOverflow) ∧
    (∀ rows, run_preprocess sfreq cand T = .ok rows →
      ∃ s, finalCandidates sfreq cand T = .ok s ∧ s.length = T.length) := by
  refine ⟨?_, ?_, ?_⟩
  · intro s hs
    constructor
    · intro hlt
      rw [run_eq_finish sfreq cand T s hs]
      unfold finish
      rw [if_pos hlt]
    · intro hlt
      rw [run_eq_finish sfreq cand T s hs]
      unfold finish
      rw [if_neg (by omega), if_pos hlt]
  · intro hneg
    have hfc : finalCandidates sfreq cand T = .ok cand := by
      unfold finalCandidates
      rw [if_neg (by omega)]
    rw [run_eq_finish sfreq cand T cand hfc]
    unfold finish
    rw [if_pos (by unfold missingCount at hneg; omega)]
  · intro rows h
    obtain ⟨s, hfc, hlen, -, -⟩ := run_ok_shape sfreq cand T rows h
    exact ⟨s, hfc, hlen⟩

/-- Witness for C3: Scenario D — five candidates against four expected rows
has missing = -1 < 0 and fails with InsertionOverflow. -/
theorem C3_witness :
    missingCount [0, 512, 1024, 1536, 2048] [0, 1, 2, 3] < 0 ∧
    run_preprocess 512 [0, 512, 1024, 1536, 2048] [0, 1, 2, 3] =
      .error .insertionOverflow := by
  have h : missingCount [0, 512, 1024, 1536, 2048] [0, 1, 2, 3] < 0 := by
    norm_num [missingCount]
  exact ⟨h, (C3_count_checks 512 _ _).2.1 h⟩

/-- Claim C4: every input with missing ≥ 100 fails with
TooManyMissingTriggers (the check sits before any insertion in the
missing > 0 branch), and inputs with missing ≤ 0 never raise it, no matter
how large the excess of candidates is. -/
theorem C4_too_many_missing (sfreq : ℚ) (cand : List ℤ) (T : List ℚ) :
    (100 ≤ missingCount cand T →
      run_preprocess sfreq cand T = .error .tooManyMissingTriggers) ∧
    (missingCount cand T ≤ 0 →
      run_preprocess sfreq cand T ≠ .error .tooManyMissingTriggers) := by
  constructor
  · intro h
    have hp : (0 : ℤ) < missingCount cand T := by omega
    have hfc : finalCandidates sfreq cand T = .error .tooManyMissingTriggers := by
      unfold finalCandidates
      rw [if_pos hp, if_pos h]
    exact run_eq_error sfreq cand T _ hfc
  · intro h
    have hfc : finalCandidates sfreq cand T = .ok cand := by
      unfold finalCandidates
      rw [if_neg (by omega)]
    rw [run_eq_finish sfreq cand T cand hfc]
    unfold finish
    split_ifs <;> simp

/-- Witness for C4: an empty candidate list against 100 expected rows has
missing = 100 and fails with TooManyMissingTriggers. -/
theorem C4_witness :
    100 ≤ missingCount [] (List.replicate 100 0) ∧
    run_preprocess 1 [] (List.replicate 100 0) =
      .error .tooManyMissingTriggers := by
  have h : 100 ≤ missingCount [] (List.replicate 100 (0 : ℚ)) := by
    simp [missingCount]
  exact ⟨h, (C4_too_many_missing 1 [] (List.replicate 100 0)).1 h⟩

theorem pyInsert_getD_self {α : Type} :
    ∀ (j : ℕ) (x : α) (l : List α) (d : α), j ≤ l.length →
      (pyInsert j x l).getD j d = x := by
  intro j
  induction j with
  | zero => intro x l d _; rfl
  | succ n ih =>
    intro x l d h
    cases l with
    | nil => simp at h
    | cons y ys =>
      have hstep : pyInsert (n + 1) x (y :: ys) = y :: pyInsert n x ys := rfl
      rw [hstep, List.getD_cons_succ]
      exact ih x ys d (by simpa using h)

/-- Claim C2 is false as stated: with sfreq = 512, candidates [0, 1536] and
expected onsets [0, 1, 2, 3], missing = 2 with both missing triggers
producing over-threshold gaps at their walk positions (da - db = 2 at
position 1; after that repair, da - db = 1 at position 2).  Yet the pass
repairs only the first gap: the iteration schedule range(1, len(a)) is
fixed at len(a) = 2 before any insertion, so the walk stops after position
1 and the run ends with 3 ≠ N = 4 candidates, failing with
InsertionUnderflow instead of repairing both consecutive drops. -/
theorem C2_counterexample :
    (0 < missingCount [0, 1536] [0, 1, 2, 3] ∧
      missingCount [0, 1536] [0, 1, 2, 3] < 100) ∧
    11/100 < ((toSecs 512 [0, 1536]).getD 1 0 - (toSecs 512 [0, 1536]).getD 0 0) -
      (([0, 1, 2, 3] : List ℚ).getD 1 0 - ([0, 1, 2, 3] : List ℚ).getD 0 0) ∧
    walkFrom 512 [0, 1, 2, 3] (toSecs 512 [0, 1536]) [0, 1536] [1] =
      ([0, 1, 3], [0, 512, 1536]) ∧
    11/100 < (([0, 1, 3] : List ℚ).getD 2 0 - ([0, 1, 3] : List ℚ).getD 1 0) -
      (([0, 1, 2, 3] : List ℚ).getD 2 0 - ([0, 1, 2, 3] : List ℚ).getD 1 0) ∧
    run_preprocess 512 [0, 1536] [0, 1, 2, 3] = .error .insertionUnderflow := by
  refine ⟨⟨?_, ?_⟩, ?_, ?_, ?_, ?_⟩ <;>
    norm_num [run_preprocess, finalCandidates, missingCount, finish, walkFrom,
      pyInsert, pyRound, signedDiffs, adjDiffs, toSecs, buildRows, List.getD,
      List.range']

/-- Claim C2 (amended): the repair pass's iteration schedule is fixed at
positions 1 .. M-1 computed from the original candidate count M, so the
candidate list grows by at most one per scheduled position — at most M - 1
insertions in total, each insertion shifting the comparison forward so the
next scheduled gap is re-evaluated on the updated sequences.  Consecutive
single drops are therefore repaired only within that budget: the run with
candidates [0, 1536, 2048] and expected onsets [0, 1, 2, 3, 4] repairs two
consecutive drops and ends with exactly N = 5 candidates, while drops whose
repair would need more insertions than the remaining schedule are left
unrepaired (see the counterexample). -/
theorem C2_amended_walk_budget (sfreq : ℚ) (b : List ℚ) (a : List ℚ)
    (s : List ℤ) (js : List ℕ) :
    (s.length ≤ (walkFrom sfreq b a s js).2.length ∧
      (walkFrom sfreq b a s js).2.length ≤ s.length + js.length) ∧
    run_preprocess 512 [0, 1536, 2048] [0, 1, 2, 3, 4] =
      .ok (buildRows 512 0 [0, 512, 1024, 1536, 2048] [0, 1, 2, 3, 4]) := by
  refine ⟨⟨walkFrom_length_ge sfreq b js a s, walkFrom_length_le sfreq b js a s⟩, ?_⟩
  norm_num [run_preprocess, finalCandidates, missingCount, finish, walkFrom,
    pyInsert, pyRound, signedDiffs, adjDiffs, toSecs, buildRows, List.getD,
    List.range']

/-- Claim C5: during the repair walk an insertion happens at the scheduled
position j iff da - db > 0.11 strictly (da, db the local gaps of the
current sequences at j); when it happens, exactly the timestamp
a[j-1] + db is inserted into the seconds-array at position j and exactly
the sample index round(sfreq * (a[j-1] + db)) into the candidate list at
position j, each list growing by exactly one; and in Scenario B
(sfreq = 512, candidates [0, 512, 1536], expected [0, 1, 2, 3]) sample
1024 is synthesized at position 2 and the final candidates are
[0, 512, 1024, 1536]. -/
theorem C5_insertion_rule (sfreq : ℚ) (b a : List ℚ) (s : List ℤ)
    (j : ℕ) (js : List ℕ) :
    (¬ 11/100 < (a.getD j 0 - a.getD (j - 1) 0) -
        (b.getD j 0 - b.getD (j - 1) 0) →
      walkFrom sfreq b a s (j :: js) = walkFrom sfreq b a s js) ∧
    (11/100 < (a.getD j 0 - a.getD (j - 1) 0) -
        (b.getD j 0 - b.getD (j - 1) 0) →
      walkFrom sfreq b a s (j :: js) =
        walkFrom sfreq b
          (pyInsert j (a.getD (j - 1) 0 + (b.getD j 0 - b.getD (j - 1) 0)) a)
          (pyInsert j
            (pyRound (sfreq * (a.getD (j - 1) 0 + (b.getD j 0 - b.getD (j - 1) 0))))
            s)
          js ∧
      (pyInsert j (a.getD (j - 1) 0 + (b.getD j 0 - b.getD (j - 1) 0)) a).length =
        a.length + 1 ∧
      (pyInsert j
        (pyRound (sfreq * (a.getD (j - 1) 0 + (b.getD j 0 - b.getD (j - 1) 0))))
        s).length = s.length + 1) ∧
    (j ≤ a.length →
      (pyInsert j (a.getD (j - 1) 0 + (b.getD j 0 - b.getD (j - 1) 0)) a).getD j 0 =
        a.getD (j - 1) 0 + (b.getD j 0 - b.getD (j - 1) 0)) ∧
    finalCandidates 512 [0, 512, 1536] [0, 1, 2, 3] = .ok [0, 512, 1024, 1536] ∧
    run_preprocess 512 [0, 512, 1536] [0, 1, 2, 3] =
      .ok (buildRows 512 0 [0, 512, 1024, 1536] [0, 1, 2, 3]) := by
  refine ⟨?_, ?_, ?_, ?_, ?_⟩
  · intro h
    rw [walkFrom, if_neg h]
  · intro h
    exact ⟨by rw [walkFrom, if_pos h], length_pyInsert .., length_pyInsert ..⟩
  · intro hj
    exact pyInsert_getD_self j _ a 0 hj
  · norm_num [finalCandidates, missingCount, walkFrom, pyInsert, pyRound,
      toSecs, List.getD, List.range']
  · norm_num [run_preprocess, finalCandidates, missingCount, finish, walkFrom,
      pyInsert, pyRound, signedDiffs, adjDiffs, toSecs, buildRows, List.getD,
      List.range']

/-- Witness for C5: at a concrete non-gap position the walk leaves the
sequences alone, and at a concrete over-threshold position it performs
exactly the prescribed insertion. -/
theorem C5_witness :
    walkFrom 512 [0, 1, 2, 3] [0, 1, 3] [0, 512, 1536] [1] =
      walkFrom 512 [0, 1, 2, 3] [0, 1, 3] [0, 512, 1536] [] ∧
    walkFrom 512 [0, 1, 2, 3] [0, 1, 3] [0, 512, 1536] [2] =
      walkFrom 512 [0, 1, 2, 3]
        (pyInsert 2 (([0, 1, 3] : List ℚ).getD 1 0 +
          (([0, 1, 2, 3] : List ℚ).getD 2 0 - ([0, 1, 2, 3] : List ℚ).getD 1 0))
          [0, 1, 3])
        (pyInsert 2
          (pyRound (512 * (([0, 1, 3] : List ℚ).getD 1 0 +
            (([0, 1, 2, 3] : List ℚ).getD 2 0 - ([0, 1, 2, 3] : List ℚ).getD 1 0))))
          [0, 512, 1536])
        [] := by
  constructor
  · exact (C5_insertion_rule 512 [0, 1, 2, 3] [0, 1, 3] [0, 512, 1536] 1 []).1
      (by norm_num [List.getD])
  · exact ((C5_insertion_rule 512 [0, 1, 2, 3] [0, 1, 3] [0, 512, 1536] 2 []).2.1
      (by norm_num [List.getD])).1

/-- Claim C6: when the candidate count equals the expected count the
candidates pass through the repair block unmodified, and for an
already-aligned input (all signed gap deviations within tolerance) the run
returns exactly the positional zip: row i carries onset = cand[i]/sfreq,
onsetsample = cand[i], a zero-based eventnumber i, and time_stimon =
T[i]. -/
theorem C6_equal_counts_zip (sfreq : ℚ) (cand : List ℤ) (T : List ℚ)
    (h : cand.length = T.length) :
    finalCandidates sfreq cand T = .ok cand ∧
    ((∀ d ∈ signedDiffs sfreq cand T, d < 11/100) →
      run_preprocess sfreq cand T = .ok (buildRows sfreq 0 cand T)) ∧
    (∀ i, i < cand.length →
      (buildRows sfreq 0 cand T).getD i ⟨0, 0, 0, 0⟩ =
        ⟨(cand.getD i 0 : ℚ) / sfreq, cand.getD i 0, i, T.getD i 0⟩) := by
  have hfc : finalCandidates sfreq cand T = .ok cand := by
    unfold finalCandidates
    rw [if_neg (by unfold missingCount; omega)]
  refine ⟨hfc, ?_, ?_⟩
  · intro hd
    rw [run_eq_finish sfreq cand T cand hfc]
    unfold finish
    rw [if_neg (by omega), if_neg (by omega), if_pos hd]
  · intro i hi
    have hrow := buildRows_getD sfreq cand T 0 i hi (by omega)
    simpa using hrow

/-- Witness for C6: Scenario A — counts equal and all gaps matching, the
run returns the direct zip unchanged. -/
theorem C6_witness :
    run_preprocess 512 [0, 512, 1024, 1536] [0, 1, 2, 3] =
      .ok (buildRows 512 0 [0, 512, 1024, 1536] [0, 1, 2, 3]) := by
  refine (C6_equal_counts_zip 512 [0, 512, 1024, 1536] [0, 1, 2, 3]
    (by norm_num)).2.1 ?_
  norm_num [signedDiffs, adjDiffs, toSecs]

/-- Claim C7: the trigger detector returns exactly the sample indices i
with signal[i+1] - signal[i] equal to the target delta, in strictly
ascending order with no duplicates, and returns the empty sequence (rather
than failing) when no index matches; as a Lean function it is pure by
construction. -/
theorem C7_trigger_detector (signal : List ℚ) (delta : ℚ) :
    (∀ i, i ∈ detectTriggers signal delta ↔
      i + 1 < signal.length ∧
        signal.getD (i + 1) 0 - signal.getD i 0 = delta) ∧
    (detectTriggers signal delta).Pairwise (· < ·) ∧
    (detectTriggers signal delta).Nodup ∧
    ((∀ i, i + 1 < signal.length →
        signal.getD (i + 1) 0 - signal.getD i 0 ≠ delta) →
      detectTriggers signal delta = []) := by
  refine ⟨?_, ?_, ?_, ?_⟩
  · intro i
    simp only [detectTriggers, List.mem_filter, List.mem_range,
      decide_eq_true_eq]
    constructor
    · rintro ⟨hi, hd⟩
      exact ⟨by omega, hd⟩
    · rintro ⟨hi, hd⟩
      exact ⟨by omega, hd⟩
  · exact (List.pairwise_lt_range _).filter _
  · exact (List.nodup_range _).filter _
  · intro h
    unfold detectTriggers
    rw [List.filter_eq_nil_iff]
    intro i hi
    rw [List.mem_range] at hi
    simp only [decide_eq_true_eq]
    exact h i (by omega)

/-- Witness for C7: a flat marker signal yields the empty trigger list. -/
theorem C7_witness : detectTriggers [0, 0, 0] 5 = [] := by
  refine (C7_trigger_detector [0, 0, 0] 5).2.2.2 ?_
  intro i hi
  have hi2 : i < 2 := by simp at hi; omega
  interval_cases i <;> norm_num [List.getD]

/-- Claim C8: in every successfully produced aligned table, each row's
onset equals its onsetsample divided by sfreq exactly (both fields are
written from the same final candidate entry). -/
theorem C8_roundtrip (sfreq : ℚ) (cand : List ℤ) (T : List ℚ)
    (rows : List Row) (h : run_preprocess sfreq cand T = .ok rows) :
    ∀ r ∈ rows, r.onset = (r.onsetsample : ℚ) / sfreq := by
  obtain ⟨s, -, -, -, hrows⟩ := run_ok_shape sfreq cand T rows h
  subst hrows
  intro r hr
  exact mem_buildRows sfreq s T 0 r hr

/-- Witness for C8: the Scenario A run succeeds and its third row satisfies
the round-trip equation 1024 / 512 = 2. -/
theorem C8_witness :
    run_preprocess 512 [0, 512, 1024, 1536] [0, 1, 2, 3] =
      .ok (buildRows 512 0 [0, 512, 1024, 1536] [0, 1, 2, 3]) ∧
    (Row.mk 2 1024 2 2).onset = ((Row.mk 2 1024 2 2).onsetsample : ℚ) / 512 := by
  have hrun : run_preprocess 512 [0, 512, 1024, 1536] [0, 1, 2, 3] =
      .ok (buildRows 512 0 [0, 512, 1024, 1536] [0, 1, 2, 3]) := by
    norm_num [run_preprocess, finalCandidates, missingCount, finish,
      signedDiffs, adjDiffs, toSecs, buildRows]
  refine ⟨hrun, C8_roundtrip 512 [0, 512, 1024, 1536] [0, 1, 2, 3] _ hrun
    (Row.mk 2 1024 2 2) ?_⟩
  norm_num [buildRows]

/-- Claim C9: strict monotonicity is an invariant of the repair walk: if
the candidate times in seconds are strictly increasing and the expected
onset times are strictly increasing (with at least as many expected rows
as candidates, as in every run that reaches the walk), the seconds-array
is still strictly increasing after every insertion — each inserted value
a[j-1] + db satisfies a[j-1] < a[j-1] + db < a[j], since db > 0 and
da - db > 0.11 > 0 forces db < da. -/
theorem C9_strict_mono_invariant (sfreq : ℚ) (cand : List ℤ) (T : List ℚ)
    (hb : T.Pairwise (· < ·)) (ha : (toSecs sfreq cand).Pairwise (· < ·))
    (hlen : cand.length ≤ T.length) :
    ((walkFrom sfreq T (toSecs sfreq cand) cand
      (List.range' 1 (cand.length - 1))).1).Pairwise (· < ·) := by
  apply walkFrom_pairwise sfreq T hb _ _ cand ha
  intro j hj
  rw [List.mem_range'_1] at hj
  have hlen2 : (toSecs sfreq cand).length = cand.length := by simp [toSecs]
  refine ⟨by omega, ?_, by omega⟩
  rw [hlen2]
  omega

/-- Witness for C9: the repair walk on candidates [0, 1536] against
expected [0, 1, 2, 3] keeps the seconds-array strictly increasing. -/
theorem C9_witness :
    ((walkFrom 512 [0, 1, 2, 3] (toSecs 512 [0, 1536]) [0, 1536]
      (List.range' 1 (([0, 1536] : List ℤ).length - 1))).1).Pairwise (· < ·) :=
  C9_strict_mono_invariant 512 [0, 1536] [0, 1, 2, 3]
    (by norm_num [List.pairwise_cons])
    (by norm_num [toSecs, List.pairwise_cons])
    (by norm_num)

/-- Claim C10: missing triggers that produce no examined over-threshold gap
are never repaired: whenever 0 < missing < 100 but no scheduled walk
position shows da - db > 0.11 on the original sequences, the walk inserts
nothing and the run fails with InsertionUnderflow — not with
TooManyMissingTriggers and not with a repaired output. -/
theorem C10_no_gap_underflow (sfreq : ℚ) (cand : List ℤ) (T : List ℚ)
    (h1 : 0 < missingCount cand T) (h2 : missingCount cand T < 100)
    (hno : ∀ j ∈ List.range' 1 (cand.length - 1),
      ¬ 11/100 < ((toSecs sfreq cand).getD j 0 -
          (toSecs sfreq cand).getD (j - 1) 0) -
        (T.getD j 0 - T.getD (j - 1) 0)) :
    finalCandidates sfreq cand T = .ok cand ∧
    run_preprocess sfreq cand T = .error .insertionUnderflow := by
  have hwalk := walkFrom_no_insert sfreq T (List.range' 1 (cand.length - 1))
    (toSecs sfreq cand) cand hno
  have hfc : finalCandidates sfreq cand T = .ok cand := by
    unfold finalCandidates
    rw [if_pos h1, if_neg (by omega), hwalk]
  refine ⟨hfc, ?_⟩
  rw [run_eq_finish sfreq cand T cand hfc]
  unfold finish
  rw [if_neg (by unfold missingCount at h1; omega),
    if_pos (by unfold missingCount at h1; omega)]

/-- Witness for C10: a trailing missing trigger ([0, 512, 1024] against
[0, 1, 2, 3]) produces no over-threshold gap at any walk position, so
nothing is repaired and the run underflows. -/
theorem C10_witness :
    finalCandidates 512 [0, 512, 1024] [0, 1, 2, 3] = .ok [0, 512, 1024] ∧
    run_preprocess 512 [0, 512, 1024] [0, 1, 2, 3] =
      .error .insertionUnderflow := by
  apply C10_no_gap_underflow
  · norm_num [missingCount]
  · norm_num [missingCount]
  · intro j hj
    rw [List.mem_range'_1] at hj
    simp only [List.length_cons, List.length_nil] at hj
    obtain ⟨hj1, hj2⟩ := hj
    interval_cases j <;> norm_num [toSecs, List.getD]

end Preproc
